import Mathlib

/-!
Verification development for the map-analysis core of bs-manager
(`MapAnalysisService`): duplicate detection by content hash, fuzzy
grouping of similar songs via normalized text keys and Levenshtein
similarity, and quality ranking of the members of each group.

Numbers that the TypeScript source handles as IEEE doubles are modelled
as rationals (`ℚ`); the special values NaN/±Infinity, where they matter
(the score clamp), are modelled separately by `JSNum`.  Optional /
nullable fields are modelled with `Option`.
-/

/-! ## Data model

`MapInfo` and `SongDetails` are imported interfaces in the source; only
the fields read by `MapAnalysisService` are modelled.  String fields that
the service guards against null (`if (!text) return ''`) are `Option
String`; numeric metadata guarded by `typeof x === 'number'` or by JS
truthiness is `Option ℚ`.
-/

/-- Uploader descriptor inside `SongDetails`; only `verified` is read. -/
structure Uploader where
  verified : Bool
deriving DecidableEq, Repr

/-- The community-metadata block `songDetails` (fields read by the service). -/
structure SongDetails where
  duration : Option ℚ
  upVotes : Option ℚ
  downVotes : Option ℚ
  downloads : Option ℚ
  ranked : Bool
  blRanked : Bool
  curated : Bool
  automapper : Bool
  uploader : Option Uploader
deriving DecidableEq, Repr

/-- The `mapInfo` block (fields read by the service).  `difficulties` is
the ordered list of difficulty tags; the service only ever reads its
length. -/
structure MapInfo where
  songName : Option String
  songAuthorName : Option String
  beatsPerMinute : Option ℚ
  difficulties : List String
deriving DecidableEq, Repr

/-- One local map record (`BsmLocalMap`); fields not read by the analysis
(cover/song URLs, path) are omitted. -/
structure BsmLocalMap where
  hash : String
  mapInfo : MapInfo
  songDetails : Option SongDetails
deriving DecidableEq, Repr

/-- A record wrapped with its computed score and recommendation flag
(`ScoredMap`). -/
structure ScoredMap where
  map : BsmLocalMap
  score : ℚ
  recommended : Bool
deriving DecidableEq, Repr

/-- The similarity classification of a group. -/
inductive Similarity where
  | exact
  | high
  | medium
  | low
deriving DecidableEq, Repr

/-- A group of similar maps (`SimilarMapGroup`). -/
structure SimilarMapGroup where
  songName : Option String
  authorName : Option String
  maps : List ScoredMap
  totalSize : Nat
  similarity : Similarity
deriving DecidableEq, Repr

/-- The analysis result (`SimilarMapsResult`). -/
structure SimilarMapsResult where
  groups : List SimilarMapGroup
  totalDuplicates : Nat
  potentialSpaceSaving : Nat
deriving DecidableEq, Repr

/-! ## Text normalization (`normalizeSongInfo`)

The source normalizes a title/artist pair with
`text.toLowerCase()`
`.replace(/[^\w\s]/g, '')`
`.replace(/\s+(feat|ft|featuring|prod|produced by)\s+.*` + `/i, '')`
`.replace(/\s+(remix|edit|version|mix|vip|cover).*` + `/i, '')`
`.trim()`
and joins the two normalized fields with a single space.  The JS regex
semantics are embedded below: `\w` is `[A-Za-z0-9_]`, `\s` is the JS
whitespace set (which includes the line terminators), `.` matches any
character except a line terminator, an un-flagged `replace` removes the
leftmost match only, and alternation is tried left to right. -/

/-- JS regex `\w`: ASCII letters, digits and underscore. -/
def isWordChar (c : Char) : Bool :=
  c.isAlpha || c.isDigit || c == '_'

/-- JS regex `\s` (equals the `String.prototype.trim` character class):
WhiteSpace ∪ LineTerminator code points. -/
def isJsWhitespace (c : Char) : Bool :=
  ([0x9, 0xa, 0xb, 0xc, 0xd, 0x20, 0xa0, 0x1680,
    0x2000, 0x2001, 0x2002, 0x2003, 0x2004, 0x2005, 0x2006, 0x2007,
    0x2008, 0x2009, 0x200a, 0x2028, 0x2029, 0x202f, 0x205f, 0x3000,
    0xfeff] : List Nat).contains c.toNat

/-- JS LineTerminator code points (what `.` does not match). -/
def isLineTerminator (c : Char) : Bool :=
  ([0xa, 0xd, 0x2028, 0x2029] : List Nat).contains c.toNat

/-- Case-insensitive literal match: drop the pattern `p` (given in lower
case) from the front of `cs`, returning the rest, or `none`. -/
def dropCI : List Char → List Char → Option (List Char)
  | [], cs => some cs
  | _ :: _, [] => none
  | p :: ps, c :: cs => if c.toLower == p then dropCI ps cs else none

/-- The alternation `(feat|ft|featuring|prod|produced by)` in source order. -/
def featWords : List (List Char) :=
  [['f','e','a','t'], ['f','t'], ['f','e','a','t','u','r','i','n','g'],
   ['p','r','o','d'], ['p','r','o','d','u','c','e','d',' ','b','y']]

/-- The alternation `(remix|edit|version|mix|vip|cover)` in source order. -/
def verWords : List (List Char) :=
  [['r','e','m','i','x'], ['e','d','i','t'], ['v','e','r','s','i','o','n'],
   ['m','i','x'], ['v','i','p'], ['c','o','v','e','r']]

/-- Try the trigger words of `/\s+(feat|…)\s+.*` + `/i` in order at the
position just after the leading whitespace run; on success return the
text remaining after the whole match (the greedy `.*` consumes the
maximal run of non-line-terminator characters). -/
def matchFeatTail : List (List Char) → List Char → Option (List Char)
  | [], _ => none
  | w :: ws, cs =>
    match dropCI w cs with
    | some rest =>
      let s := rest.span isJsWhitespace
      if s.1.isEmpty then matchFeatTail ws cs
      else some (s.2.dropWhile (fun c => !isLineTerminator c))
    | none => matchFeatTail ws cs

/-- Match `/\s+(feat|ft|featuring|prod|produced by)\s+.*` + `/i` at the
start of `cs`; return the remainder after the match. -/
def matchFeatAt (cs : List Char) : Option (List Char) :=
  let s := cs.span isJsWhitespace
  if s.1.isEmpty then none else matchFeatTail featWords s.2

/-- Try the trigger words of `/\s+(remix|…).*` + `/i` in order (no
whitespace is required after the word in this regex). -/
def matchVerTail : List (List Char) → List Char → Option (List Char)
  | [], _ => none
  | w :: ws, cs =>
    match dropCI w cs with
    | some rest => some (rest.dropWhile (fun c => !isLineTerminator c))
    | none => matchVerTail ws cs

/-- Match `/\s+(remix|edit|version|mix|vip|cover).*` + `/i` at the start
of `cs`; return the remainder after the match. -/
def matchVerAt (cs : List Char) : Option (List Char) :=
  let s := cs.span isJsWhitespace
  if s.1.isEmpty then none else matchVerTail verWords s.2

/-- Un-flagged `String.prototype.replace(re, '')`: delete the leftmost
match of the pattern, keeping everything before and after it. -/
def replaceFirstMatch (matchAt : List Char → Option (List Char)) :
    List Char → List Char
  | [] => []
  | c :: cs =>
    match matchAt (c :: cs) with
    | some rest => rest
    | none => c :: replaceFirstMatch matchAt cs

/-- `String.prototype.trim`. -/
def jsTrim (cs : List Char) : List Char :=
  (((cs.dropWhile isJsWhitespace).reverse).dropWhile isJsWhitespace).reverse

/-- The inner `normalizeText` closure of `normalizeSongInfo`: null or
empty input yields the empty string, otherwise lower-case, strip
`[^\w\s]`, remove the featuring segment, remove the version-qualifier
segment, trim. -/
def normalizeText (text : Option String) : String :=
  match text with
  | none => ""
  | some t =>
    if t = "" then ""
    else
      let cs := t.data.map Char.toLower
      let cs := cs.filter (fun c => isWordChar c || isJsWhitespace c)
      let cs := replaceFirstMatch matchFeatAt cs
      let cs := replaceFirstMatch matchVerAt cs
      String.mk (jsTrim cs)

/-- `normalizeSongInfo`: the normalized comparison key, the two
normalized fields joined by a single space. -/
def normalizeSongInfo (title artist : Option String) : String :=
  normalizeText title ++ " " ++ normalizeText artist

/-! ## Similarity (`getSimilarity`, `levenshteinDistance`)

The source fills the classic `(len1+1) × (len2+1)` dynamic-programming
matrix with unit costs; `Levenshtein.levenshtein` with `defaultCost` is
that same dynamic program (computed row-wise over suffixes). -/

/-- `levenshteinDistance`: classic unit-cost edit distance, as computed
by the source's DP matrix. -/
def levenshteinDistance (s1 s2 : String) : Nat :=
  levenshtein Levenshtein.defaultCost s1.data s2.data

/-- `getSimilarity`: `1 - distance / max(len, len)`, with `1.0` for two
empty strings. -/
def getSimilarity (str1 str2 : String) : ℚ :=
  let maxLength := max str1.length str2.length
  if maxLength = 0 then 1
  else 1 - (levenshteinDistance str1 str2 : ℚ) / (maxLength : ℚ)

/-- Textbook recursive unit-cost edit distance (single-character
insertion / deletion / substitution), stated from the specification's
description; used to certify `levenshteinDistance`. -/
def editDistanceSpec : List Char → List Char → Nat
  | [], ys => ys.length
  | x :: xs, [] => (x :: xs).length
  | x :: xs, y :: ys =>
    min (editDistanceSpec xs (y :: ys) + 1)
      (min (editDistanceSpec (x :: xs) ys + 1)
        (editDistanceSpec xs ys + (if x = y then 0 else 1)))
termination_by s1 s2 => s1.length + s2.length

/-! ## Hash grouping (`groupByHash`)

`Object.groupBy(maps, m => m.hash)` followed by `Object.entries`
iterates the hash values in order of first occurrence, each bucket
keeping input order; buckets of size ≤ 1 are skipped. -/

/-- Distinct elements of a list in order of first occurrence (the
iteration order of a JS object's string keys). -/
def firstOccurrencesAux (seen : List String) : List String → List String
  | [] => []
  | h :: t =>
    if seen.contains h then firstOccurrencesAux seen t
    else h :: firstOccurrencesAux (h :: seen) t

/-- Distinct elements in order of first occurrence. -/
def firstOccurrences (l : List String) : List String :=
  firstOccurrencesAux [] l

/-- The `exact` cluster for one hash value: `none` when the hash has at
most one occurrence. -/
def mkHashGroup (maps : List BsmLocalMap) (h : String) : Option SimilarMapGroup :=
  match maps.filter (fun m => m.hash == h) with
  | [] => none
  | [_] => none
  | m0 :: m1 :: rest =>
    some { songName := m0.mapInfo.songName
           authorName := m0.mapInfo.songAuthorName
           maps := (m0 :: m1 :: rest).map
             (fun mm => { map := mm, score := 0, recommended := false })
           totalSize := 0
           similarity := Similarity.exact }

/-- `groupByHash`: one `exact` cluster per hash value with ≥ 2
occurrences, clusters in order of the hash's first occurrence. -/
def groupByHash (maps : List BsmLocalMap) : List SimilarMapGroup :=
  (firstOccurrences (maps.map BsmLocalMap.hash)).filterMap (mkHashGroup maps)

/-! ## Fuzzy song grouping (`groupBySimilarSong`) -/

/-- The tier assignment of lines 229-237 of the service: `> 0.9` high,
`> 0.8` medium, `> 0.7` low, otherwise no candidate match. -/
def similarityLevel (s : ℚ) : Option Similarity :=
  if s > 9/10 then some Similarity.high
  else if s > 8/10 then some Similarity.medium
  else if s > 7/10 then some Similarity.low
  else none

/-- A known tempo in the sense of the grouper: present and non-zero
(JS truthiness; the data model only admits positive tempos). -/
def knownTempo (m : BsmLocalMap) : Option ℚ :=
  match m.mapInfo.beatsPerMinute with
  | some b => if b = 0 then none else some b
  | none => none

/-- A known duration in the sense of the grouper: `songDetails` present
with a present, non-zero `duration`. -/
def knownDuration (m : BsmLocalMap) : Option ℚ :=
  match m.songDetails.bind SongDetails.duration with
  | some d => if d = 0 then none else some d
  | none => none

/-- The per-candidate body of the inner loop of `groupBySimilarSong`
(lines 221-268): tier from text similarity, then the BPM corroboration
check, then (only if still similar) the duration corroboration check.
JS truthiness on `beatsPerMinute` and `songDetails?.duration` (a
missing or zero value skips the corresponding check) is folded into
`knownTempo` / `knownDuration`. -/
def candidateMatches (seed cand : BsmLocalMap) : Bool :=
  let normalizedSource :=
    normalizeSongInfo seed.mapInfo.songName seed.mapInfo.songAuthorName
  let normalizedTarget :=
    normalizeSongInfo cand.mapInfo.songName cand.mapInfo.songAuthorName
  let similarity := getSimilarity normalizedSource normalizedTarget
  match similarityLevel similarity with
  | none => false
  | some lvl =>
    let isSimilar := true
    let isSimilar :=
      match knownTempo seed, knownTempo cand with
      | some b1, some b2 =>
        let bpmDiff := |b1 - b2|
        if bpmDiff > 10 ∧ bpmDiff / b1 > 1/10 then
          if lvl ≠ Similarity.high then false else isSimilar
        else isSimilar
      | _, _ => isSimilar
    let isSimilar :=
      if isSimilar then
        match knownDuration seed, knownDuration cand with
        | some d1, some d2 =>
          let durationDiff := |d1 - d2|
          let threshold := max 15 (d1 * (15/100))
          if durationDiff > threshold then
            if lvl ≠ Similarity.high then false else isSimilar
          else isSimilar
        | _, _ => isSimilar
      else isSimilar
    isSimilar

/-- The inner `j` loop of `groupBySimilarSong`: scan the records after
the seed, skipping already-clustered hashes, collecting matching
candidates and marking their hashes as processed. -/
def collectSimilar (seed : BsmLocalMap) :
    List BsmLocalMap → List String → List BsmLocalMap × List String
  | [], processed => ([], processed)
  | c :: cs, processed =>
    if processed.contains c.hash then collectSimilar seed cs processed
    else if candidateMatches seed c then
      let res := collectSimilar seed cs (c.hash :: processed)
      (c :: res.1, res.2)
    else collectSimilar seed cs processed

/-- The outer `i` loop of `groupBySimilarSong`: each not-yet-processed
record seeds a candidate cluster; the cluster is emitted only when it
has more than one member.  A seed's hash is marked processed even when
its cluster is discarded.  Every emitted fuzzy cluster is labelled
`high` (`groupSimilarity` is fixed at line 279). -/
def groupBySimilarSongAux :
    List BsmLocalMap → List String → List SimilarMapGroup
  | [], _ => []
  | m :: rest, processed =>
    if processed.contains m.hash then groupBySimilarSongAux rest processed
    else
      let res := collectSimilar m rest (m.hash :: processed)
      if res.1.isEmpty then groupBySimilarSongAux rest res.2
      else
        { songName := m.mapInfo.songName
          authorName := m.mapInfo.songAuthorName
          maps := (m :: res.1).map
            (fun mm => { map := mm, score := 0, recommended := false })
          totalSize := 0
          similarity := Similarity.high } :: groupBySimilarSongAux rest res.2

/-- `groupBySimilarSong`, starting from an empty processed set. -/
def groupBySimilarSong (maps : List BsmLocalMap) : List SimilarMapGroup :=
  groupBySimilarSongAux maps []

/-! ## Ranking (`rankMapGroups`, `estimateMapSize`) -/

/-- `estimateMapSize`: `200 + difficulties.length * 50` abstract size
units. -/
def estimateMapSize (m : BsmLocalMap) : Nat :=
  200 + m.mapInfo.difficulties.length * 50

/-- The per-record score of `rankMapGroups` (lines 304-329).  Every
numeric field is guarded by `typeof x === 'number'` in the source
(`Option.getD 0` here); on rationals the final `isNaN` clamp is the
identity — the IEEE special values are treated by `computeScoreJS`
below. -/
def computeScore (m : BsmLocalMap) : ℚ :=
  let score : ℚ := 0
  let score :=
    match m.songDetails with
    | none => score
    | some sd =>
      let upVotes := sd.upVotes.getD 0
      let downVotes := sd.downVotes.getD 0
      let downloads := sd.downloads.getD 0
      let score := score + (upVotes - downVotes) * 2
      let score := score + downloads / 20
      let score := if sd.ranked || sd.blRanked then score + 500 else score
      let score := if sd.curated then score + 100 else score
      let score :=
        if (sd.uploader.map Uploader.verified).getD false then score + 50 else score
      let score := if sd.automapper then score - 300 else score
      score
  if 5 ≤ m.mapInfo.difficulties.length then score + 100 else score

/-- Stable insertion step for the descending sort by score: a new
element (earlier in the unsorted list) is placed before the first
element whose score is not greater, so equal scores keep their original
relative order — the stable-sort semantics of `Array.prototype.sort`
with comparator `(a, b) => scoreB - scoreA`. -/
def insertDesc (x : ScoredMap) : List ScoredMap → List ScoredMap
  | [] => [x]
  | y :: ys => if x.score < y.score then y :: insertDesc x ys else x :: y :: ys

/-- Stable sort of a cluster's members, descending by score. -/
def sortByScoreDesc : List ScoredMap → List ScoredMap
  | [] => []
  | x :: xs => insertDesc x (sortByScoreDesc xs)

/-- The per-group body of `rankMapGroups`: assign scores, sort
descending by score (stable), mark the first member recommended, and
total the estimated sizes of all members. -/
def rankGroup (g : SimilarMapGroup) : SimilarMapGroup :=
  let scored := g.maps.map (fun item => { item with score := computeScore item.map })
  let sorted := sortByScoreDesc scored
  let marked :=
    match sorted with
    | [] => []
    | first :: rest => { first with recommended := true } :: rest
  { g with
    maps := marked
    totalSize := marked.foldl (fun size m => size + estimateMapSize m.map) 0 }

/-- `rankMapGroups`: rank every group (the source's in-place loop,
returned functionally). -/
def rankMapGroups (groups : List SimilarMapGroup) : List SimilarMapGroup :=
  groups.map rankGroup

/-! ## Pipeline (`findSimilarMaps`)

The `Observable` wrapper (`of(maps).pipe(map f)`) delivers one
synchronous value; the embedding is the function it computes. -/

/-- `findSimilarMaps`: hash clusters, then fuzzy clusters, ranked, with
the duplicate count and reclaimable-size totals over the non-recommended
members. -/
def findSimilarMaps (maps : List BsmLocalMap) : SimilarMapsResult :=
  let hashGroups := groupByHash maps
  let songGroups := groupBySimilarSong maps
  let combinedGroups := hashGroups ++ songGroups
  let analyzedGroups := rankMapGroups combinedGroups
  let totalDuplicates := analyzedGroups.foldl
    (fun count g => count + (g.maps.filter (fun m => !m.recommended)).length) 0
  let potentialSpaceSaving := analyzedGroups.foldl
    (fun size g => size + (g.maps.filter (fun m => !m.recommended)).foldl
      (fun s m => s + estimateMapSize m.map) 0) 0
  { groups := analyzedGroups
    totalDuplicates := totalDuplicates
    potentialSpaceSaving := potentialSpaceSaving }

/-! ## JS numbers for the score clamp (`isNaN` at line 329)

The `ℚ` model above cannot represent the IEEE special values, so the
score computation of `rankMapGroups` is re-embedded once more over a
type with NaN and the two infinities to settle what the clamp
`item.score = isNaN(score) ? 0 : score` does with them.  `typeof x ===
'number'` is `true` for NaN and ±Infinity, so present special values
pass the source's field guards. -/

/-- A JS number: NaN, a signed infinity (`inf true` is `+Infinity`), or
a finite value (modelled exactly as a rational). -/
inductive JSNum where
  | nan : JSNum
  | inf : Bool → JSNum
  | num : ℚ → JSNum
deriving DecidableEq, Repr

/-- IEEE negation. -/
def JSNum.neg : JSNum → JSNum
  | nan => nan
  | inf s => inf !s
  | num q => num (-q)

/-- IEEE addition: NaN propagates, opposite infinities give NaN. -/
def JSNum.add : JSNum → JSNum → JSNum
  | nan, _ => nan
  | inf _, nan => nan
  | num _, nan => nan
  | inf s, inf t => if s = t then inf s else nan
  | inf s, num _ => inf s
  | num _, inf t => inf t
  | num a, num b => num (a + b)

/-- IEEE subtraction. -/
def JSNum.sub (a b : JSNum) : JSNum := a.add b.neg

/-- Multiplication by a positive finite constant (the literal `2`). -/
def JSNum.mulPos (a : JSNum) (k : ℚ) : JSNum :=
  match a with
  | nan => nan
  | inf s => inf s
  | num q => num (q * k)

/-- Division by a positive finite constant (the literal `20`). -/
def JSNum.divPos (a : JSNum) (k : ℚ) : JSNum :=
  match a with
  | nan => nan
  | inf s => inf s
  | num q => num (q / k)

/-- The `isNaN` predicate: `false` on ±Infinity. -/
def JSNum.isNaN : JSNum → Bool
  | nan => true
  | _ => false

/-- A finite JS number (neither NaN nor an infinity). -/
def JSNum.isFinite : JSNum → Bool
  | num _ => true
  | _ => false

/-- `SongDetails` with JS-number community metrics. -/
structure SongDetailsJS where
  upVotes : Option JSNum
  downVotes : Option JSNum
  downloads : Option JSNum
  ranked : Bool
  blRanked : Bool
  curated : Bool
  automapper : Bool
  uploader : Option Uploader
deriving DecidableEq, Repr

/-- Lines 305-326 of the source over JS numbers: the intermediate score
before the clamp. -/
def computeScoreJSRaw (sd : Option SongDetailsJS) (difficultyCount : Nat) : JSNum :=
  let score := JSNum.num 0
  let score :=
    match sd with
    | none => score
    | some sd =>
      let upVotes := sd.upVotes.getD (JSNum.num 0)
      let downVotes := sd.downVotes.getD (JSNum.num 0)
      let downloads := sd.downloads.getD (JSNum.num 0)
      let score := score.add ((upVotes.sub downVotes).mulPos 2)
      let score := score.add (downloads.divPos 20)
      let score := if sd.ranked || sd.blRanked then score.add (JSNum.num 500) else score
      let score := if sd.curated then score.add (JSNum.num 100) else score
      let score :=
        if (sd.uploader.map Uploader.verified).getD false
        then score.add (JSNum.num 50) else score
      let score := if sd.automapper then score.sub (JSNum.num 300) else score
      score
  if 5 ≤ difficultyCount then score.add (JSNum.num 100) else score

/-- Lines 305-329 including the clamp `isNaN(score) ? 0 : score`. -/
def computeScoreJS (sd : Option SongDetailsJS) (difficultyCount : Nat) : JSNum :=
  let score := computeScoreJSRaw sd difficultyCount
  if score.isNaN then JSNum.num 0 else score

/-! ## Specification-side definitions

These definitions restate, in the words of the specification, what the
claims assert; the theorems below compare them with the embedded source
functions. -/

/-- The score formula exactly as claim C2 words it, in particular with
"at least 5 *distinct* difficulty entries". -/
def scoreFormulaDistinct (m : BsmLocalMap) : ℚ :=
  let sd := m.songDetails
  ((sd.bind SongDetails.upVotes).getD 0 - (sd.bind SongDetails.downVotes).getD 0) * 2
    + (sd.bind SongDetails.downloads).getD 0 / 20
    + (if (sd.map SongDetails.ranked).getD false
          || (sd.map SongDetails.blRanked).getD false then 500 else 0)
    + (if (sd.map SongDetails.curated).getD false then 100 else 0)
    + (if ((sd.bind SongDetails.uploader).map Uploader.verified).getD false then 50 else 0)
    - (if (sd.map SongDetails.automapper).getD false then 300 else 0)
    + (if 5 ≤ m.mapInfo.difficulties.dedup.length then 100 else 0)

/-- The score formula with the difficulty bonus keyed on the *number of
difficulty entries* (list length), which is what the source computes. -/
def scoreFormulaAmended (m : BsmLocalMap) : ℚ :=
  let sd := m.songDetails
  ((sd.bind SongDetails.upVotes).getD 0 - (sd.bind SongDetails.downVotes).getD 0) * 2
    + (sd.bind SongDetails.downloads).getD 0 / 20
    + (if (sd.map SongDetails.ranked).getD false
          || (sd.map SongDetails.blRanked).getD false then 500 else 0)
    + (if (sd.map SongDetails.curated).getD false then 100 else 0)
    + (if ((sd.bind SongDetails.uploader).map Uploader.verified).getD false then 50 else 0)
    - (if (sd.map SongDetails.automapper).getD false then 300 else 0)
    + (if 5 ≤ m.mapInfo.difficulties.length then 100 else 0)

/-- The normalization pipeline exactly as claim C6 words it: the strip
step keeps only letters, digits and whitespace. -/
def normalizeTextClaim (text : Option String) : String :=
  match text with
  | none => ""
  | some t =>
    if t = "" then ""
    else
      let cs := t.data.map Char.toLower
      let cs := cs.filter (fun c => c.isAlpha || c.isDigit || isJsWhitespace c)
      let cs := replaceFirstMatch matchFeatAt cs
      let cs := replaceFirstMatch matchVerAt cs
      String.mk (jsTrim cs)

/-- Claim C6's normalizer: both fields normalized and joined by a single
space. -/
def normalizeSongInfoClaim (title artist : Option String) : String :=
  normalizeTextClaim title ++ " " ++ normalizeTextClaim artist

/-- The normalization pipeline with the strip step amended to also keep
underscores (JS `\w` is `[A-Za-z0-9_]`). -/
def normalizeTextAmended (text : Option String) : String :=
  match text with
  | none => ""
  | some t =>
    if t = "" then ""
    else
      let cs := t.data.map Char.toLower
      let cs := cs.filter (fun c => c.isAlpha || c.isDigit || c == '_' || isJsWhitespace c)
      let cs := replaceFirstMatch matchFeatAt cs
      let cs := replaceFirstMatch matchVerAt cs
      String.mk (jsTrim cs)

/-- The amended claim-C6 normalizer. -/
def normalizeSongInfoAmended (title artist : Option String) : String :=
  normalizeTextAmended title ++ " " ++ normalizeTextAmended artist

/-- The normalized comparison key of a record. -/
def songKey (m : BsmLocalMap) : String :=
  normalizeSongInfo m.mapInfo.songName m.mapInfo.songAuthorName

/-- Claim C4's tempo contradiction: both tempos known, difference above
10 BPM and above 10% of the seed tempo, and the tier is not `high`. -/
def tempoContradicts (seed cand : BsmLocalMap) : Prop :=
  ∃ b1 b2, knownTempo seed = some b1 ∧ knownTempo cand = some b2 ∧
    |b1 - b2| > 10 ∧ |b1 - b2| / b1 > 1/10 ∧
    similarityLevel (getSimilarity (songKey seed) (songKey cand)) ≠ some Similarity.high

/-- Claim C4's duration contradiction: both durations known, difference
above `max(15, 15% of seed duration)`, and the tier is not `high`. -/
def durationContradicts (seed cand : BsmLocalMap) : Prop :=
  ∃ d1 d2, knownDuration seed = some d1 ∧ knownDuration cand = some d2 ∧
    |d1 - d2| > max 15 (d1 * (15/100)) ∧
    similarityLevel (getSimilarity (songKey seed) (songKey cand)) ≠ some Similarity.high

/-- Claim C4's acceptance condition for a not-yet-clustered candidate:
similarity above 0.7, no tempo contradiction, and — when the tempo check
did not reject — no duration contradiction. -/
def fuzzyMatchSpec (seed cand : BsmLocalMap) : Prop :=
  getSimilarity (songKey seed) (songKey cand) > 7/10 ∧
  ¬ tempoContradicts seed cand ∧
  (¬ tempoContradicts seed cand → ¬ durationContradicts seed cand)

/-! ## Concrete inputs used by witnesses and counterexamples -/

/-- A minimal record: hash `h1`, title `a`, author `b`, no metadata. -/
def demoMapA : BsmLocalMap :=
  { hash := "h1"
    mapInfo := { songName := some "a", songAuthorName := some "b"
                 beatsPerMinute := none, difficulties := [] }
    songDetails := none }

/-- A second record with the same hash and content as `demoMapA`. -/
def demoMapB : BsmLocalMap :=
  { hash := "h1"
    mapInfo := { songName := some "a", songAuthorName := some "b"
                 beatsPerMinute := none, difficulties := [] }
    songDetails := none }

/-- A batch with one exact-duplicate pair. -/
def demoBatch : List BsmLocalMap := [demoMapA, demoMapB]

/-- The single ranked cluster `findSimilarMaps demoBatch` returns. -/
def demoRanked : SimilarMapGroup :=
  { songName := some "a"
    authorName := some "b"
    maps := [{ map := demoMapA, score := 0, recommended := true },
             { map := demoMapB, score := 0, recommended := false }]
    totalSize := 400
    similarity := Similarity.exact }

/-- A record with five difficulty entries that are all the same tag:
one distinct difficulty, five entries. -/
def demoDupDiffMap : BsmLocalMap :=
  { hash := "h2"
    mapInfo := { songName := some "a", songAuthorName := some "b"
                 beatsPerMinute := none
                 difficulties := ["e", "e", "e", "e", "e"] }
    songDetails := none }

/-- An unranked cluster holding two copies of `demoDupDiffMap`. -/
def demoDupDiffGroup : SimilarMapGroup :=
  { songName := some "a"
    authorName := some "b"
    maps := [{ map := demoDupDiffMap, score := 0, recommended := false },
             { map := demoDupDiffMap, score := 0, recommended := false }]
    totalSize := 0
    similarity := Similarity.exact }

/-- A fuzzy-match candidate for `demoMapA`: different hash, same song. -/
def demoMapC : BsmLocalMap :=
  { hash := "h3"
    mapInfo := { songName := some "a", songAuthorName := some "b"
                 beatsPerMinute := none, difficulties := [] }
    songDetails := none }

/-- Song details whose `upVotes` is `+Infinity` (a well-typed JS number
that passes the `typeof` guard). -/
def demoInfDetails : SongDetailsJS :=
  { upVotes := some (JSNum.inf true), downVotes := none, downloads := none
    ranked := false, blRanked := false, curated := false, automapper := false
    uploader := none }

/-! ## Lemmas: membership helpers -/

/-- `List.contains` agrees with membership on `String` lists. -/
theorem stringContains_iff {l : List String} {a : String} :
    l.contains a = true ↔ a ∈ l :=
  List.elem_iff

/-! ## Lemmas: the stable descending sort -/

/-- Inserting permutes to consing. -/
theorem insertDesc_perm (x : ScoredMap) (l : List ScoredMap) :
    List.Perm (insertDesc x l) (x :: l) := by
  induction l with
  | nil => simp [insertDesc]
  | cons y ys ih =>
    by_cases h : x.score < y.score
    · simp only [insertDesc, if_pos h]
      exact (ih.cons y).trans (List.Perm.swap x y ys)
    · simp [insertDesc, if_neg h]

/-- The sort permutes its input. -/
theorem sortByScoreDesc_perm (l : List ScoredMap) : List.Perm (sortByScoreDesc l) l := by
  induction l with
  | nil => simp [sortByScoreDesc]
  | cons x xs ih => exact (insertDesc_perm x (sortByScoreDesc xs)).trans (ih.cons x)

/-- Membership through insertion. -/
theorem mem_insertDesc {a x : ScoredMap} {l : List ScoredMap} :
    a ∈ insertDesc x l ↔ a = x ∨ a ∈ l :=
  (insertDesc_perm x l).mem_iff.trans List.mem_cons

/-- Membership through the sort. -/
theorem mem_sortByScoreDesc {a : ScoredMap} {l : List ScoredMap} :
    a ∈ sortByScoreDesc l ↔ a ∈ l :=
  (sortByScoreDesc_perm l).mem_iff

/-- Inserting preserves the descending-by-score pairwise order. -/
theorem pairwise_insertDesc {x : ScoredMap} {l : List ScoredMap}
    (h : l.Pairwise (fun a b => b.score ≤ a.score)) :
    (insertDesc x l).Pairwise (fun a b => b.score ≤ a.score) := by
  induction l with
  | nil => simp [insertDesc]
  | cons y ys ih =>
    rw [List.pairwise_cons] at h
    obtain ⟨hy, hys⟩ := h
    by_cases hxy : x.score < y.score
    · simp only [insertDesc, if_pos hxy]
      rw [List.pairwise_cons]
      refine ⟨?_, ih hys⟩
      intro z hz
      rcases mem_insertDesc.mp hz with rfl | hz
      · exact le_of_lt hxy
      · exact hy z hz
    · simp only [insertDesc, if_neg hxy]
      rw [List.pairwise_cons]
      refine ⟨?_, List.pairwise_cons.mpr ⟨hy, hys⟩⟩
      intro z hz
      rcases List.mem_cons.mp hz with rfl | hz
      · exact not_lt.mp hxy
      · exact (hy z hz).trans (not_lt.mp hxy)

/-- The sort output is descending by score. -/
theorem pairwise_sortByScoreDesc (l : List ScoredMap) :
    (sortByScoreDesc l).Pairwise (fun a b => b.score ≤ a.score) := by
  induction l with
  | nil => simp [sortByScoreDesc]
  | cons x xs ih => exact pairwise_insertDesc ih

/-- Head of the stable descending sort: the first input element carrying
the maximal score.  The decomposition exhibits the earlier elements as
strictly smaller, which is the stability tie-break. -/
theorem sortByScoreDesc_decomp :
    ∀ (l : List ScoredMap), l ≠ [] →
    ∃ l1 m l2 t, l = l1 ++ m :: l2 ∧ (∀ y ∈ l1, y.score < m.score) ∧
      (∀ y ∈ l, y.score ≤ m.score) ∧ sortByScoreDesc l = m :: t := by
  intro l
  induction l with
  | nil => intro h; exact absurd rfl h
  | cons x xs ih =>
    intro _
    rcases eq_or_ne xs [] with hxs | hxs
    · subst hxs
      exact ⟨[], x, [], [], rfl, by simp, by simp,
        by simp [sortByScoreDesc, insertDesc]⟩
    · obtain ⟨l1, m, l2, t, hdec, hlt, hle, hsort⟩ := ih hxs
      by_cases hx : x.score < m.score
      · refine ⟨x :: l1, m, l2, insertDesc x t, by rw [hdec]; rfl, ?_, ?_, ?_⟩
        · intro y hy
          rcases List.mem_cons.mp hy with rfl | hy
          · exact hx
          · exact hlt y hy
        · intro y hy
          rcases List.mem_cons.mp hy with rfl | hy
          · exact le_of_lt hx
          · exact hle y hy
        · simp [sortByScoreDesc, hsort, insertDesc, if_pos hx]
      · refine ⟨[], x, xs, m :: t, rfl, by simp, ?_, ?_⟩
        · intro y hy
          rcases List.mem_cons.mp hy with rfl | hy
          · exact le_refl _
          · exact (hle y hy).trans (not_lt.mp hx)
        · simp [sortByScoreDesc, hsort, insertDesc, if_neg hx]

/-! ## Lemmas: first occurrences -/

/-- Membership in `firstOccurrencesAux`. -/
theorem mem_firstOccurrencesAux :
    ∀ (l seen : List String) (a : String),
    a ∈ firstOccurrencesAux seen l ↔ a ∈ l ∧ a ∉ seen := by
  intro l
  induction l with
  | nil => intro seen a; simp [firstOccurrencesAux]
  | cons h t ih =>
    intro seen a
    have he : firstOccurrencesAux seen (h :: t) =
        if seen.contains h then firstOccurrencesAux seen t
        else h :: firstOccurrencesAux (h :: seen) t := rfl
    by_cases hc : seen.contains h
    · rw [he, if_pos hc, ih]
      constructor
      · rintro ⟨hat, hns⟩
        exact ⟨List.mem_cons_of_mem h hat, hns⟩
      · rintro ⟨hah, hns⟩
        rcases List.mem_cons.mp hah with rfl | hat
        · exact absurd (stringContains_iff.mp hc) hns
        · exact ⟨hat, hns⟩
    · rw [he, if_neg hc, List.mem_cons, ih]
      constructor
      · rintro (rfl | ⟨hat, hns⟩)
        · exact ⟨List.mem_cons_self a t, fun hs => hc (stringContains_iff.mpr hs)⟩
        · refine ⟨List.mem_cons_of_mem h hat, fun hs => hns (List.mem_cons_of_mem h hs)⟩
      · rintro ⟨hah, hns⟩
        rcases List.mem_cons.mp hah with rfl | hat
        · exact Or.inl rfl
        · by_cases hahh : a = h
          · exact Or.inl hahh
          · exact Or.inr ⟨hat, fun hs => (List.mem_cons.mp hs).elim hahh hns⟩

/-- `firstOccurrencesAux` never repeats an element. -/
theorem nodup_firstOccurrencesAux :
    ∀ (l seen : List String), (firstOccurrencesAux seen l).Nodup := by
  intro l
  induction l with
  | nil => intro seen; simp [firstOccurrencesAux]
  | cons h t ih =>
    intro seen
    have he : firstOccurrencesAux seen (h :: t) =
        if seen.contains h then firstOccurrencesAux seen t
        else h :: firstOccurrencesAux (h :: seen) t := rfl
    by_cases hc : seen.contains h
    · rw [he, if_pos hc]
      exact ih seen
    · rw [he, if_neg hc]
      refine List.nodup_cons.mpr ⟨?_, ih (h :: seen)⟩
      intro hmem
      exact ((mem_firstOccurrencesAux t (h :: seen) h).mp hmem).2 (List.mem_cons_self h seen)

/-- Membership in `firstOccurrences`. -/
theorem mem_firstOccurrences {l : List String} {a : String} :
    a ∈ firstOccurrences l ↔ a ∈ l := by
  rw [firstOccurrences, mem_firstOccurrencesAux]
  simp

/-- `firstOccurrences` never repeats an element. -/
theorem nodup_firstOccurrences (l : List String) : (firstOccurrences l).Nodup :=
  nodup_firstOccurrencesAux l []

/-! ## Lemmas: hash grouping -/

/-- What a produced hash group looks like. -/
theorem mkHashGroup_eq_some {maps : List BsmLocalMap} {h : String} {g : SimilarMapGroup}
    (hg : mkHashGroup maps h = some g) :
    2 ≤ (maps.filter (fun m => m.hash == h)).length ∧
    g.maps = (maps.filter (fun m => m.hash == h)).map
      (fun mm => { map := mm, score := 0, recommended := false }) ∧
    g.similarity = Similarity.exact := by
  unfold mkHashGroup at hg
  split at hg
  · exact absurd hg (by simp)
  · exact absurd hg (by simp)
  · next m0 m1 rest heq =>
    obtain rfl := Option.some.inj hg
    rw [heq]
    exact ⟨by simp, rfl, rfl⟩

/-- A hash with at least two occurrences yields a group. -/
theorem mkHashGroup_of_two {maps : List BsmLocalMap} {h : String}
    (h2 : 2 ≤ (maps.filter (fun m => m.hash == h)).length) :
    ∃ g, mkHashGroup maps h = some g := by
  unfold mkHashGroup
  split
  · next heq => rw [heq] at h2; simp at h2
  · next heq => rw [heq] at h2; simp at h2
  · exact ⟨_, rfl⟩

/-- A hash with a single occurrence yields no group. -/
theorem mkHashGroup_of_one {maps : List BsmLocalMap} {h : String}
    (h1 : (maps.filter (fun m => m.hash == h)).length = 1) :
    mkHashGroup maps h = none := by
  unfold mkHashGroup
  split
  · rfl
  · rfl
  · next m0 m1 rest heq => rw [heq] at h1; simp at h1

/-- Every member of a hash group carries the group's hash value. -/
theorem mkHashGroup_member_hash {maps : List BsmLocalMap} {h : String} {g : SimilarMapGroup}
    (hg : mkHashGroup maps h = some g) :
    g.maps ≠ [] ∧ ∀ sm ∈ g.maps, sm.map.hash = h := by
  obtain ⟨h2, hmaps, -⟩ := mkHashGroup_eq_some hg
  constructor
  · rw [hmaps]
    intro hnil
    rw [List.map_eq_nil_iff] at hnil
    rw [hnil] at h2
    simp at h2
  · intro sm hsm
    rw [hmaps] at hsm
    obtain ⟨mm, hmm, rfl⟩ := List.mem_map.mp hsm
    exact beq_iff_eq.mp (List.mem_filter.mp hmm).2

/-- Shape of every group produced by `groupByHash`. -/
theorem groupByHash_shape {maps : List BsmLocalMap} {g : SimilarMapGroup}
    (hg : g ∈ groupByHash maps) :
    2 ≤ g.maps.length ∧ (∀ sm ∈ g.maps, sm.recommended = false ∧ sm.score = 0) ∧
    g.similarity = Similarity.exact := by
  obtain ⟨h, -, hfm⟩ := List.mem_filterMap.mp hg
  obtain ⟨h2, hmaps, hsim⟩ := mkHashGroup_eq_some hfm
  refine ⟨?_, ?_, hsim⟩
  · rw [hmaps, List.length_map]
    exact h2
  · intro sm hsm
    rw [hmaps] at hsm
    obtain ⟨mm, -, rfl⟩ := List.mem_map.mp hsm
    exact ⟨rfl, rfl⟩

/-! ## Lemmas: generic filterMap facts used for claim C8 -/

/-- If no produced value satisfies `p`, the filtered `filterMap` is empty. -/
theorem filter_filterMap_eq_nil {α β : Type} (f : α → Option β) (p : β → Bool) :
    ∀ (l : List α), (∀ x ∈ l, ∀ y, f x = some y → p y = false) →
    (l.filterMap f).filter p = [] := by
  intro l
  induction l with
  | nil => intro _; rfl
  | cons x xs ih =>
    intro hall
    cases hfx : f x with
    | none =>
      rw [List.filterMap_cons_none hfx]
      exact ih fun a ha => hall a (List.mem_cons_of_mem x ha)
    | some y =>
      rw [List.filterMap_cons_some hfx, List.filter_cons,
        hall x (List.mem_cons_self x xs) y hfx]
      simp only [Bool.false_eq_true, if_false]
      exact ih fun a ha => hall a (List.mem_cons_of_mem x ha)

/-- If exactly the element `a` of a duplicate-free list produces a value
satisfying `p`, the filtered `filterMap` is that one value. -/
theorem filter_filterMap_eq_singleton {α β : Type} (f : α → Option β) (p : β → Bool) :
    ∀ (l : List α) (a : α) (b : β), l.Nodup → a ∈ l → f a = some b → p b = true →
    (∀ x ∈ l, x ≠ a → ∀ y, f x = some y → p y = false) →
    (l.filterMap f).filter p = [b] := by
  intro l
  induction l with
  | nil => intro a b _ ha; exact absurd ha (List.not_mem_nil a)
  | cons x xs ih =>
    intro a b hnd ha hfa hpb hall
    rcases List.mem_cons.mp ha with rfl | ha'
    · rw [List.filterMap_cons_some hfa, List.filter_cons, hpb, if_pos rfl]
      have : (xs.filterMap f).filter p = [] := by
        refine filter_filterMap_eq_nil f p xs ?_
        intro x hx y hfy
        refine hall x (List.mem_cons_of_mem a hx) ?_ y hfy
        intro e
        exact (List.nodup_cons.mp hnd).1 (e ▸ hx)
      rw [this]
    · have hxa : x ≠ a := by
        intro e
        exact (List.nodup_cons.mp hnd).1 (e ▸ ha')
      cases hfx : f x with
      | none =>
        rw [List.filterMap_cons_none hfx]
        exact ih a b (List.nodup_cons.mp hnd).2 ha' hfa hpb
          fun z hz hza => hall z (List.mem_cons_of_mem x hz) hza
      | some y =>
        rw [List.filterMap_cons_some hfx, List.filter_cons,
          hall x (List.mem_cons_self x xs) hxa y hfx]
        simp only [Bool.false_eq_true, if_false]
        exact ih a b (List.nodup_cons.mp hnd).2 ha' hfa hpb
          fun z hz hza => hall z (List.mem_cons_of_mem x hz) hza

/-! ## Lemmas: fuzzy song grouping -/

/-- Shape of every group produced by the fuzzy grouper: a seed plus a
nonempty list of matches, all unscored and unrecommended, labelled
`high`. -/
theorem groupBySimilarSongAux_shape :
    ∀ (rest : List BsmLocalMap) (processed : List String) (g : SimilarMapGroup),
    g ∈ groupBySimilarSongAux rest processed →
    ∃ seed ms, ms ≠ [] ∧
      g.maps = (seed :: ms).map (fun mm => { map := mm, score := 0, recommended := false }) ∧
      g.similarity = Similarity.high := by
  intro rest
  induction rest with
  | nil => intro processed g hg; simp [groupBySimilarSongAux] at hg
  | cons m rest ih =>
    intro processed g hg
    have he : groupBySimilarSongAux (m :: rest) processed =
        if processed.contains m.hash then groupBySimilarSongAux rest processed
        else
          if (collectSimilar m rest (m.hash :: processed)).1.isEmpty then
            groupBySimilarSongAux rest (collectSimilar m rest (m.hash :: processed)).2
          else
            { songName := m.mapInfo.songName
              authorName := m.mapInfo.songAuthorName
              maps := (m :: (collectSimilar m rest (m.hash :: processed)).1).map
                (fun mm => { map := mm, score := 0, recommended := false })
              totalSize := 0
              similarity := Similarity.high } ::
              groupBySimilarSongAux rest (collectSimilar m rest (m.hash :: processed)).2 := rfl
    rw [he] at hg
    by_cases h1 : processed.contains m.hash
    · rw [if_pos h1] at hg
      exact ih processed g hg
    · rw [if_neg h1] at hg
      by_cases h2 : (collectSimilar m rest (m.hash :: processed)).1.isEmpty
      · rw [if_pos h2] at hg
        exact ih _ g hg
      · rw [if_neg h2] at hg
        rcases List.mem_cons.mp hg with rfl | hg'
        · refine ⟨m, (collectSimilar m rest (m.hash :: processed)).1, ?_, rfl, rfl⟩
          intro hnil
          exact h2 (by rw [hnil]; rfl)
        · exact ih _ g hg'

/-- Invariants of the candidate scan: the returned processed set is the
input set plus the hashes of the matches; the matches have pairwise
distinct hashes, none of which was already processed. -/
theorem collectSimilar_spec (seed : BsmLocalMap) :
    ∀ (rest : List BsmLocalMap) (processed : List String),
    (∀ x, x ∈ (collectSimilar seed rest processed).2 ↔
      x ∈ processed ∨ ∃ c ∈ (collectSimilar seed rest processed).1, c.hash = x) ∧
    ((collectSimilar seed rest processed).1.map BsmLocalMap.hash).Nodup ∧
    (∀ c ∈ (collectSimilar seed rest processed).1, c.hash ∉ processed) := by
  intro rest
  induction rest with
  | nil =>
    intro processed
    refine ⟨fun x => ?_, by simp [collectSimilar], by simp [collectSimilar]⟩
    simp [collectSimilar]
  | cons c cs ih =>
    intro processed
    have he : collectSimilar seed (c :: cs) processed =
        if processed.contains c.hash then collectSimilar seed cs processed
        else if candidateMatches seed c then
          ((c :: (collectSimilar seed cs (c.hash :: processed)).1),
            (collectSimilar seed cs (c.hash :: processed)).2)
        else collectSimilar seed cs processed := rfl
    by_cases h1 : processed.contains c.hash
    · rw [he, if_pos h1]
      exact ih processed
    · rw [he, if_neg h1]
      by_cases h2 : candidateMatches seed c
      · rw [if_pos h2]
        obtain ⟨iha, ihb, ihc⟩ := ih (c.hash :: processed)
        refine ⟨fun x => ?_, ?_, ?_⟩
        · rw [iha x]
          constructor
          · rintro (hx | ⟨c', hc', rfl⟩)
            · rcases List.mem_cons.mp hx with rfl | hx
              · exact Or.inr ⟨c, List.mem_cons_self _ _, rfl⟩
              · exact Or.inl hx
            · exact Or.inr ⟨c', List.mem_cons_of_mem c hc', rfl⟩
          · rintro (hx | ⟨c', hc', rfl⟩)
            · exact Or.inl (List.mem_cons_of_mem _ hx)
            · rcases List.mem_cons.mp hc' with rfl | hc'
              · exact Or.inl (List.mem_cons_self _ _)
              · exact Or.inr ⟨c', hc', rfl⟩
        · rw [List.map_cons]
          refine List.nodup_cons.mpr ⟨?_, ihb⟩
          intro hmem
          obtain ⟨c', hc', hh⟩ := List.mem_map.mp hmem
          exact ihc c' hc' (hh ▸ List.mem_cons_self c.hash processed)
        · intro c' hc'
          rcases List.mem_cons.mp hc' with rfl | hc'
          · intro hmem
            exact h1 (stringContains_iff.mpr hmem)
          · intro hmem
            exact ihc c' hc' (List.mem_cons_of_mem _ hmem)
      · rw [if_neg h2]
        exact ih processed

/-- Across the groups the fuzzy grouper returns, every identity hash
appears at most once, and none of the already-processed hashes appears. -/
theorem groupBySimilarSongAux_hashes :
    ∀ (rest : List BsmLocalMap) (processed : List String),
    (((groupBySimilarSongAux rest processed).map
        (fun g => g.maps.map (fun sm => sm.map.hash))).flatten).Nodup ∧
    (∀ x ∈ ((groupBySimilarSongAux rest processed).map
        (fun g => g.maps.map (fun sm => sm.map.hash))).flatten, x ∉ processed) := by
  intro rest
  induction rest with
  | nil => intro processed; simp [groupBySimilarSongAux]
  | cons m rest ih =>
    intro processed
    have he : groupBySimilarSongAux (m :: rest) processed =
        if processed.contains m.hash then groupBySimilarSongAux rest processed
        else
          if (collectSimilar m rest (m.hash :: processed)).1.isEmpty then
            groupBySimilarSongAux rest (collectSimilar m rest (m.hash :: processed)).2
          else
            { songName := m.mapInfo.songName
              authorName := m.mapInfo.songAuthorName
              maps := (m :: (collectSimilar m rest (m.hash :: processed)).1).map
                (fun mm => { map := mm, score := 0, recommended := false })
              totalSize := 0
              similarity := Similarity.high } ::
              groupBySimilarSongAux rest (collectSimilar m rest (m.hash :: processed)).2 := rfl
    obtain ⟨csa, csb, csc⟩ := collectSimilar_spec m rest (m.hash :: processed)
    by_cases h1 : processed.contains m.hash
    · rw [he, if_pos h1]
      exact ih processed
    · rw [he, if_neg h1]
      by_cases h2 : (collectSimilar m rest (m.hash :: processed)).1.isEmpty
      · rw [if_pos h2]
        obtain ⟨ihn, ihp⟩ := ih (collectSimilar m rest (m.hash :: processed)).2
        refine ⟨ihn, ?_⟩
        intro x hx hxp
        exact ihp x hx ((csa x).mpr (Or.inl (List.mem_cons_of_mem _ hxp)))
      · rw [if_neg h2]
        obtain ⟨ihn, ihp⟩ := ih (collectSimilar m rest (m.hash :: processed)).2
        rw [List.map_cons, List.flatten_cons]
        have hghashes :
            ({ songName := m.mapInfo.songName
               authorName := m.mapInfo.songAuthorName
               maps := (m :: (collectSimilar m rest (m.hash :: processed)).1).map
                 (fun mm => { map := mm, score := 0, recommended := false })
               totalSize := 0
               similarity := Similarity.high } : SimilarMapGroup).maps.map
              (fun sm => sm.map.hash) =
            m.hash :: (collectSimilar m rest (m.hash :: processed)).1.map
              BsmLocalMap.hash := by
          simp [Function.comp]
        rw [hghashes]
        have hmemtwo : ∀ x, x ∈ m.hash :: (collectSimilar m rest (m.hash :: processed)).1.map
            BsmLocalMap.hash → x ∈ (collectSimilar m rest (m.hash :: processed)).2 := by
          intro x hx
          rcases List.mem_cons.mp hx with rfl | hx
          · exact (csa m.hash).mpr (Or.inl (List.mem_cons_self _ _))
          · obtain ⟨c', hc', rfl⟩ := List.mem_map.mp hx
            exact (csa c'.hash).mpr (Or.inr ⟨c', hc', rfl⟩)
        constructor
        · rw [List.nodup_append]
          refine ⟨?_, ihn, ?_⟩
          · refine List.nodup_cons.mpr ⟨?_, csb⟩
            intro hmem
            obtain ⟨c', hc', hh⟩ := List.mem_map.mp hmem
            exact csc c' hc' (hh ▸ List.mem_cons_self m.hash processed)
          · intro x hx hx'
            exact ihp x hx' (hmemtwo x hx)
        · intro x hx
          rcases List.mem_append.mp hx with hx | hx
          · rcases List.mem_cons.mp hx with rfl | hx
            · exact fun hmem => h1 (stringContains_iff.mpr hmem)
            · obtain ⟨c', hc', rfl⟩ := List.mem_map.mp hx
              exact fun hmem => csc c' hc' (List.mem_cons_of_mem _ hmem)
          · intro hmem
            exact ihp x hx ((csa x).mpr (Or.inl (List.mem_cons_of_mem _ hmem)))

/-! ## Lemmas: ranking -/

/-- Decomposition of a ranked nonempty group: the scored members split
around their first maximal element `m`, and the ranked member list is
`m` (marked recommended) followed by the rest of the stable sort. -/
theorem rankGroup_spec {g : SimilarMapGroup} (hne : g.maps ≠ []) :
    ∃ l1 m l2 t,
      g.maps.map (fun it => { it with score := computeScore it.map }) = l1 ++ m :: l2 ∧
      (∀ y ∈ l1, y.score < m.score) ∧
      (∀ y ∈ l1 ++ m :: l2, y.score ≤ m.score) ∧
      sortByScoreDesc (l1 ++ m :: l2) = m :: t ∧
      (rankGroup g).maps = { m with recommended := true } :: t := by
  obtain ⟨l1, m, l2, t, hdec, hlt, hle, hsort⟩ :=
    sortByScoreDesc_decomp (g.maps.map (fun it => { it with score := computeScore it.map }))
      (fun hnil => hne (List.map_eq_nil_iff.mp hnil))
  refine ⟨l1, m, l2, t, hdec, hlt,
    fun y hy => hle y (by rw [hdec]; exact hy),
    by rw [← hdec]; exact hsort, ?_⟩
  have hm : (rankGroup g).maps =
      match sortByScoreDesc (g.maps.map (fun it => { it with score := computeScore it.map })) with
      | [] => []
      | first :: rest => { first with recommended := true } :: rest := rfl
  rw [hm, hsort]

/-- Every ranked member's score is the computed score of its record. -/
theorem rankGroup_score {g : SimilarMapGroup} {sm : ScoredMap}
    (hsm : sm ∈ (rankGroup g).maps) : sm.score = computeScore sm.map := by
  rcases eq_or_ne g.maps [] with hnil | hne
  · have hempty : (rankGroup g).maps = [] := by
      simp [rankGroup, hnil, sortByScoreDesc]
    rw [hempty] at hsm
    exact absurd hsm (List.not_mem_nil sm)
  · obtain ⟨l1, m, l2, t, hdec, -, -, hsort, hmaps⟩ := rankGroup_spec hne
    rw [hmaps] at hsm
    have hmem : ∀ y ∈ m :: t,
        y ∈ g.maps.map (fun it => { it with score := computeScore it.map }) := by
      intro y hy
      rw [hdec]
      exact mem_sortByScoreDesc.mp (by rw [hsort]; exact hy)
    rcases List.mem_cons.mp hsm with rfl | hsm'
    · obtain ⟨it, -, heq⟩ := List.mem_map.mp (hmem m (List.mem_cons_self m t))
      rw [← heq]
    · obtain ⟨it, -, heq⟩ := List.mem_map.mp (hmem sm (List.mem_cons_of_mem m hsm'))
      rw [← heq]

/-- Ranking preserves the number of members. -/
theorem rankGroup_length (g : SimilarMapGroup) :
    (rankGroup g).maps.length = g.maps.length := by
  rcases eq_or_ne g.maps [] with hnil | hne
  · simp [rankGroup, hnil, sortByScoreDesc]
  · obtain ⟨l1, m, l2, t, hdec, -, -, hsort, hmaps⟩ := rankGroup_spec hne
    rw [hmaps]
    have h1 : (m :: t).length = (l1 ++ m :: l2).length := by
      rw [← hsort]
      exact (sortByScoreDesc_perm _).length_eq
    have h2 : (l1 ++ m :: l2).length = g.maps.length := by
      rw [← hdec, List.length_map]
    calc ({ m with recommended := true } :: t).length
        = (m :: t).length := by simp
      _ = (l1 ++ m :: l2).length := h1
      _ = g.maps.length := h2

/-- Every group entering the ranking stage (hash or fuzzy) has at least
two members, none of them pre-recommended. -/
theorem combined_shape {maps : List BsmLocalMap} {g0 : SimilarMapGroup}
    (hg : g0 ∈ groupByHash maps ++ groupBySimilarSong maps) :
    2 ≤ g0.maps.length ∧ ∀ sm ∈ g0.maps, sm.recommended = false := by
  rcases List.mem_append.mp hg with hg | hg
  · obtain ⟨h2, hall, -⟩ := groupByHash_shape hg
    exact ⟨h2, fun sm hsm => (hall sm hsm).1⟩
  · obtain ⟨seed, ms, hms, hmaps, -⟩ := groupBySimilarSongAux_shape maps [] g0 hg
    constructor
    · rw [hmaps, List.length_map, List.length_cons]
      have : ms.length ≠ 0 := fun h => hms (List.length_eq_zero.mp h)
      omega
    · intro sm hsm
      rw [hmaps] at hsm
      obtain ⟨mm, -, rfl⟩ := List.mem_map.mp hsm
      rfl

/-- The scoring loop body agrees with the additive score formula over
the record's fields. -/
theorem computeScore_eq_formula (m : BsmLocalMap) :
    computeScore m = scoreFormulaAmended m := by
  cases hsd : m.songDetails with
  | none =>
    simp [computeScore, scoreFormulaAmended, hsd]
  | some sd =>
    simp only [computeScore, scoreFormulaAmended, hsd, Option.some_bind, Option.map_some',
      Option.getD_some]
    split_ifs <;> ring

/-- Folding `+ f x` over a list starting from `n` totals `n` plus the
sum of the images. -/
theorem foldl_add_eq_sum {α : Type} (f : α → Nat) :
    ∀ (l : List α) (n : Nat), l.foldl (fun acc x => acc + f x) n = n + (l.map f).sum := by
  intro l
  induction l with
  | nil => intro n; simp
  | cons x xs ih =>
    intro n
    rw [List.foldl_cons, ih, List.map_cons, List.sum_cons]
    omega

/-- Claim C1: in every cluster of the returned analysis result, exactly
one member is recommended; every member's score is bounded by the
recommended member's score; the members are sorted descending by score;
and the recommended member is the first (stable sort: earliest
pre-ranking occurrence) member carrying the maximal score. -/
theorem claimC1 (maps : List BsmLocalMap) (g : SimilarMapGroup)
    (hg : g ∈ (findSimilarMaps maps).groups) :
    (g.maps.filter (fun sm => sm.recommended)).length = 1 ∧
    (∀ sm ∈ g.maps, sm.recommended = true → ∀ sm2 ∈ g.maps, sm2.score ≤ sm.score) ∧
    g.maps.Pairwise (fun a b => b.score ≤ a.score) ∧
    (∃ g0 ∈ groupByHash maps ++ groupBySimilarSong maps, g = rankGroup g0 ∧
      ∃ l1 m l2,
        g0.maps.map (fun it => { it with score := computeScore it.map }) = l1 ++ m :: l2 ∧
        (∀ y ∈ l1, y.score < m.score) ∧
        (∀ y ∈ l1 ++ m :: l2, y.score ≤ m.score) ∧
        g.maps.head? = some { m with recommended := true }) := by
  have hg' : g ∈ (groupByHash maps ++ groupBySimilarSong maps).map rankGroup := hg
  obtain ⟨g0, hg0, rfl⟩ := List.mem_map.mp hg'
  obtain ⟨h2, hrec⟩ := combined_shape hg0
  have hne : g0.maps ≠ [] := by
    intro h
    rw [h] at h2
    simp at h2
  obtain ⟨l1, m, l2, t, hdec, hlt, hle, hsort, hmaps⟩ := rankGroup_spec hne
  have hmemt : ∀ y ∈ m :: t,
      y ∈ g0.maps.map (fun it => { it with score := computeScore it.map }) := by
    intro y hy
    rw [hdec]
    exact mem_sortByScoreDesc.mp (by rw [hsort]; exact hy)
  have hrecfalse : ∀ y ∈ g0.maps.map (fun it => { it with score := computeScore it.map }),
      y.recommended = false := by
    intro y hy
    obtain ⟨it, hit, rfl⟩ := List.mem_map.mp hy
    exact hrec it hit
  refine ⟨?_, ?_, ?_, ?_⟩
  · have htnil : t.filter (fun sm => sm.recommended) = [] := by
      rw [List.filter_eq_nil_iff]
      intro y hy
      have := hrecfalse y (hmemt y (List.mem_cons_of_mem m hy))
      simp [this]
    rw [hmaps, List.filter_cons]
    simp [htnil]
  · intro sm hsm hsmrec sm2 hsm2
    rw [hmaps] at hsm hsm2
    have hsm2le : sm2.score ≤ m.score := by
      rcases List.mem_cons.mp hsm2 with rfl | hmm
      · exact le_of_eq rfl
      · have hmem := hmemt sm2 (List.mem_cons_of_mem m hmm)
        rw [hdec] at hmem
        exact hle sm2 hmem
    rcases List.mem_cons.mp hsm with rfl | hmm
    · exact hsm2le
    · have := hrecfalse sm (hmemt sm (List.mem_cons_of_mem m hmm))
      rw [hsmrec] at this
      exact absurd this (by simp)
  · rw [hmaps]
    have hp : (m :: t).Pairwise (fun a b => b.score ≤ a.score) := by
      rw [← hsort]
      exact pairwise_sortByScoreDesc _
    rw [List.pairwise_cons] at hp
    rw [List.pairwise_cons]
    exact ⟨fun a ha => hp.1 a ha, hp.2⟩
  · exact ⟨g0, hg0, rfl, l1, m, l2, hdec, hlt, hle, by rw [hmaps]; rfl⟩

/-- Witness for claim C1 at the concrete duplicate pair. -/
theorem claimC1_witness :
    demoRanked ∈ (findSimilarMaps demoBatch).groups ∧
    ((demoRanked.maps.filter (fun sm => sm.recommended)).length = 1 ∧
     (∀ sm ∈ demoRanked.maps, sm.recommended = true →
        ∀ sm2 ∈ demoRanked.maps, sm2.score ≤ sm.score) ∧
     demoRanked.maps.Pairwise (fun a b => b.score ≤ a.score) ∧
     (∃ g0 ∈ groupByHash demoBatch ++ groupBySimilarSong demoBatch,
        demoRanked = rankGroup g0 ∧
        ∃ l1 m l2,
          g0.maps.map (fun it => { it with score := computeScore it.map }) = l1 ++ m :: l2 ∧
          (∀ y ∈ l1, y.score < m.score) ∧
          (∀ y ∈ l1 ++ m :: l2, y.score ≤ m.score) ∧
          demoRanked.maps.head? = some { m with recommended := true })) :=
  ⟨by with_unfolding_all decide,
    claimC1 demoBatch demoRanked (by with_unfolding_all decide)⟩

/-- Claim C2, counterexample: a record with five identical difficulty
entries (one distinct difficulty) is scored 100 by the Ranker, while the
claimed formula with "≥ 5 distinct difficulty entries" yields 0. -/
theorem claimC2_counterexample :
    (rankMapGroups [demoDupDiffGroup]).map
        (fun g => g.maps.map (fun sm => (sm.score, scoreFormulaDistinct sm.map)))
      = [[(100, 0), (100, 0)]] ∧
    demoDupDiffMap.mapInfo.difficulties.length = 5 ∧
    demoDupDiffMap.mapInfo.difficulties.dedup.length = 1 ∧
    (100 : ℚ) ≠ 0 :=
  ⟨by with_unfolding_all decide, by with_unfolding_all decide,
    by with_unfolding_all decide, by norm_num⟩

/-- Claim C2 (amended): for every record in every cluster, the Ranker
assigns score `(upVotes − downVotes) × 2 + downloads / 20` (0 for
missing numeric fields), plus 500 if `ranked` or `blRanked`, plus 100 if
`curated`, plus 50 if the uploader is verified, minus 300 if
auto-generated, plus 100 if the record has at least 5 difficulty
*entries* (list length, not distinct count). -/
theorem claimC2 (groups : List SimilarMapGroup) (g : SimilarMapGroup) (sm : ScoredMap)
    (hg : g ∈ rankMapGroups groups) (hsm : sm ∈ g.maps) :
    sm.score = scoreFormulaAmended sm.map := by
  obtain ⟨g0, -, rfl⟩ := List.mem_map.mp hg
  rw [rankGroup_score hsm]
  exact computeScore_eq_formula sm.map

/-- Witness for claim C2 at a concrete ranked cluster. -/
theorem claimC2_witness :
    demoRanked ∈ rankMapGroups (groupByHash demoBatch ++ groupBySimilarSong demoBatch) ∧
    ({ map := demoMapA, score := 0, recommended := true } : ScoredMap) ∈ demoRanked.maps ∧
    ({ map := demoMapA, score := 0, recommended := true } : ScoredMap).score =
      scoreFormulaAmended demoMapA :=
  ⟨by with_unfolding_all decide, by with_unfolding_all decide,
    claimC2 (groupByHash demoBatch ++ groupBySimilarSong demoBatch) demoRanked
      { map := demoMapA, score := 0, recommended := true }
      (by with_unfolding_all decide) (by with_unfolding_all decide)⟩

/-- Claim C3: every cluster emitted by the pipeline (and already every
cluster produced by either grouper) has at least two members. -/
theorem claimC3 (maps : List BsmLocalMap) (g : SimilarMapGroup)
    (hg : g ∈ (findSimilarMaps maps).groups ∨ g ∈ groupByHash maps ∨
      g ∈ groupBySimilarSong maps) :
    2 ≤ g.maps.length := by
  rcases hg with hg | hg | hg
  · have hg' : g ∈ (groupByHash maps ++ groupBySimilarSong maps).map rankGroup := hg
    obtain ⟨g0, hg0, rfl⟩ := List.mem_map.mp hg'
    rw [rankGroup_length]
    exact (combined_shape hg0).1
  · exact (combined_shape (List.mem_append_left _ hg)).1
  · exact (combined_shape (List.mem_append_right _ hg)).1

/-- Witness for claim C3 at the concrete duplicate pair. -/
theorem claimC3_witness :
    (demoRanked ∈ (findSimilarMaps demoBatch).groups ∨
      demoRanked ∈ groupByHash demoBatch ∨ demoRanked ∈ groupBySimilarSong demoBatch) ∧
    2 ≤ demoRanked.maps.length :=
  ⟨Or.inl (by with_unfolding_all decide),
    claimC3 demoBatch demoRanked (Or.inl (by with_unfolding_all decide))⟩

/-- Claim C5: the returned cluster list is the ranked hash clusters
followed by the ranked fuzzy clusters; `totalDuplicates` counts the
non-recommended members over all returned clusters; and
`potentialSpaceSaving` totals `200 + 50 × difficultyCount` over those
same members. -/
theorem claimC5 (maps : List BsmLocalMap) :
    (findSimilarMaps maps).groups =
      rankMapGroups (groupByHash maps) ++ rankMapGroups (groupBySimilarSong maps) ∧
    (findSimilarMaps maps).totalDuplicates =
      ((findSimilarMaps maps).groups.map
        (fun g => (g.maps.filter (fun sm => !sm.recommended)).length)).sum ∧
    (findSimilarMaps maps).potentialSpaceSaving =
      ((findSimilarMaps maps).groups.map (fun g =>
        ((g.maps.filter (fun sm => !sm.recommended)).map
          (fun sm => 200 + 50 * sm.map.mapInfo.difficulties.length)).sum)).sum := by
  refine ⟨List.map_append _ _ _, ?_, ?_⟩
  · have h := foldl_add_eq_sum
        (fun g : SimilarMapGroup => (g.maps.filter (fun m => !m.recommended)).length)
        (rankMapGroups (groupByHash maps ++ groupBySimilarSong maps)) 0
    exact h.trans (Nat.zero_add _)
  · have hinner : ∀ g : SimilarMapGroup,
        (g.maps.filter (fun m => !m.recommended)).foldl
          (fun s m => s + estimateMapSize m.map) 0 =
        ((g.maps.filter (fun m => !m.recommended)).map
          (fun sm => 200 + 50 * sm.map.mapInfo.difficulties.length)).sum := by
      intro g
      have h2 := foldl_add_eq_sum (fun sm : ScoredMap => estimateMapSize sm.map)
        (g.maps.filter (fun m => !m.recommended)) 0
      rw [h2, Nat.zero_add]
      have hfun : (fun sm : ScoredMap => estimateMapSize sm.map) =
          (fun sm : ScoredMap => 200 + 50 * sm.map.mapInfo.difficulties.length) := by
        funext sm
        unfold estimateMapSize
        ring
      rw [hfun]
    have houter := foldl_add_eq_sum
        (fun g : SimilarMapGroup => (g.maps.filter (fun m => !m.recommended)).foldl
          (fun s m => s + estimateMapSize m.map) 0)
        (rankMapGroups (groupByHash maps ++ groupBySimilarSong maps)) 0
    refine houter.trans ?_
    rw [Nat.zero_add]
    exact congrArg List.sum (List.map_congr_left fun g _ => hinner g)

/-- Claim C10: across all clusters returned by the fuzzy song grouper,
every identity hash occurs at most once — no cluster holds two records
with the same hash, and the hash sets of distinct clusters are pairwise
disjoint. -/
theorem claimC10 (maps : List BsmLocalMap) :
    (((groupBySimilarSong maps).map
      (fun g => g.maps.map (fun sm => sm.map.hash))).flatten).Nodup ∧
    (∀ g ∈ groupBySimilarSong maps, (g.maps.map (fun sm => sm.map.hash)).Nodup) ∧
    (groupBySimilarSong maps).Pairwise (fun g1 g2 =>
      ∀ x ∈ g1.maps.map (fun sm => sm.map.hash),
        x ∉ g2.maps.map (fun sm => sm.map.hash)) := by
  have h := (groupBySimilarSongAux_hashes maps []).1
  rw [List.nodup_flatten] at h
  obtain ⟨h1, h2⟩ := h
  refine ⟨(groupBySimilarSongAux_hashes maps []).1, ?_, ?_⟩
  · intro g hg
    exact h1 _ (List.mem_map_of_mem _ hg)
  · rw [List.pairwise_map] at h2
    exact h2

/-- Claim C6, counterexample: the source strips `[^\w\s]`, so an
underscore — not a letter, digit, or whitespace — survives
normalization, while the claimed pipeline removes it. -/
theorem claimC6_counterexample :
    normalizeSongInfo (some "a_b") (some "c") = "a_b c" ∧
    normalizeSongInfoClaim (some "a_b") (some "c") = "ab c" ∧
    normalizeSongInfo (some "a_b") (some "c") ≠
      normalizeSongInfoClaim (some "a_b") (some "c") :=
  ⟨by decide, by decide, by decide⟩

/-- Claim C6 (amended): the normalizer lower-cases each field, strips
all characters that are not letters, digits, *underscores*, or
whitespace, removes the trailing featuring segment, removes the
trailing version-qualifier segment, trims, and joins the two normalized
fields with one space; a null or empty field normalizes to the empty
string. -/
theorem claimC6 (title artist : Option String) :
    normalizeSongInfo title artist = normalizeSongInfoAmended title artist := by
  have hpred : (fun c => isWordChar c || isJsWhitespace c) =
      (fun c => c.isAlpha || c.isDigit || c == '_' || isJsWhitespace c) := by
    funext c
    simp [isWordChar, Bool.or_assoc]
  unfold normalizeSongInfo normalizeSongInfoAmended normalizeText normalizeTextAmended
  rw [hpred]

/-- Claim C8: a hash occurring k ≥ 2 times yields exactly one `exact`
cluster holding exactly those k records in input order; a hash occurring
exactly once yields no cluster from the hash grouper. -/
theorem claimC8 (maps : List BsmLocalMap) (h : String) :
    (2 ≤ (maps.filter (fun m => m.hash == h)).length →
      ∃ g, (groupByHash maps).filter
          (fun g => g.maps.any (fun sm => sm.map.hash == h)) = [g] ∧
        g.maps = (maps.filter (fun m => m.hash == h)).map
          (fun m => { map := m, score := 0, recommended := false }) ∧
        g.similarity = Similarity.exact) ∧
    ((maps.filter (fun m => m.hash == h)).length = 1 →
      (groupByHash maps).filter
        (fun g => g.maps.any (fun sm => sm.map.hash == h)) = []) := by
  have hchar : ∀ (h' : String) (g' : SimilarMapGroup),
      mkHashGroup maps h' = some g' →
      ((g'.maps.any (fun sm => sm.map.hash == h)) = true ↔ h' = h) := by
    intro h' g' hg'
    obtain ⟨hne, hall⟩ := mkHashGroup_member_hash hg'
    rw [List.any_eq_true]
    constructor
    · rintro ⟨sm, hsm, hbeq⟩
      rw [← hall sm hsm]
      exact beq_iff_eq.mp hbeq
    · rintro rfl
      cases hmaps : g'.maps with
      | nil => exact absurd hmaps hne
      | cons sm rest =>
        have hsm : sm ∈ g'.maps := by
          rw [hmaps]
          exact List.mem_cons_self sm rest
        refine ⟨sm, ?_, ?_⟩
        · exact List.mem_cons_self sm rest
        · rw [hall sm hsm]
          exact beq_self_eq_true h'
  refine ⟨?_, ?_⟩
  · intro h2
    obtain ⟨gH, hgH⟩ := mkHashGroup_of_two h2
    have hmem_h : h ∈ firstOccurrences (maps.map BsmLocalMap.hash) := by
      rw [mem_firstOccurrences]
      have hlen : 0 < (maps.filter (fun m => m.hash == h)).length := by omega
      obtain ⟨m, hm⟩ := List.exists_mem_of_length_pos hlen
      obtain ⟨hmm, hmb⟩ := List.mem_filter.mp hm
      exact beq_iff_eq.mp hmb ▸ List.mem_map_of_mem BsmLocalMap.hash hmm
    refine ⟨gH, ?_, (mkHashGroup_eq_some hgH).2.1, (mkHashGroup_eq_some hgH).2.2⟩
    refine filter_filterMap_eq_singleton (mkHashGroup maps) _ _ h gH
      (nodup_firstOccurrences _) hmem_h hgH ((hchar h gH hgH).mpr rfl) ?_
    intro h' _ hne g' hg'
    rw [Bool.eq_false_iff]
    intro hp
    exact hne ((hchar h' g' hg').mp hp)
  · intro h1
    refine filter_filterMap_eq_nil (mkHashGroup maps) _ _ ?_
    intro h' _ g' hg'
    rcases eq_or_ne h' h with rfl | hne
    · rw [mkHashGroup_of_one h1] at hg'
      exact absurd hg' (by simp)
    · rw [Bool.eq_false_iff]
      intro hp
      exact hne ((hchar h' g' hg').mp hp)

/-- Witness for claim C8 at the concrete duplicate pair. -/
theorem claimC8_witness :
    2 ≤ (demoBatch.filter (fun m => m.hash == "h1")).length ∧
    (∃ g, (groupByHash demoBatch).filter
        (fun g => g.maps.any (fun sm => sm.map.hash == "h1")) = [g] ∧
      g.maps = (demoBatch.filter (fun m => m.hash == "h1")).map
        (fun m => { map := m, score := 0, recommended := false }) ∧
      g.similarity = Similarity.exact) :=
  ⟨by with_unfolding_all decide,
    (claimC8 demoBatch "h1").1 (by with_unfolding_all decide)⟩

/-- Claim C9, counterexample: the clamp only checks `isNaN`, so an
infinite intermediate score (here from `upVotes = +Infinity`) is *not*
clamped to 0 — the final score is `+Infinity`, a non-finite value. -/
theorem claimC9_counterexample :
    computeScoreJSRaw (some demoInfDetails) 0 = JSNum.inf true ∧
    computeScoreJS (some demoInfDetails) 0 = JSNum.inf true ∧
    (JSNum.inf true).isFinite = false ∧
    computeScoreJS (some demoInfDetails) 0 ≠ JSNum.num 0 :=
  ⟨by with_unfolding_all decide, by with_unfolding_all decide, rfl,
    by with_unfolding_all decide⟩

/-- Claim C9 (amended): the Ranker clamps a NaN intermediate score to 0,
so no final score is NaN; infinite intermediate scores propagate to the
final score unchanged. -/
theorem claimC9 (sd : Option SongDetailsJS) (difficultyCount : Nat) :
    computeScoreJS sd difficultyCount =
      (if (computeScoreJSRaw sd difficultyCount).isNaN then JSNum.num 0
       else computeScoreJSRaw sd difficultyCount) ∧
    (computeScoreJS sd difficultyCount).isNaN = false := by
  refine ⟨rfl, ?_⟩
  have he : computeScoreJS sd difficultyCount =
      if (computeScoreJSRaw sd difficultyCount).isNaN then JSNum.num 0
      else computeScoreJSRaw sd difficultyCount := rfl
  rw [he]
  by_cases hn : (computeScoreJSRaw sd difficultyCount).isNaN = true
  · rw [if_pos hn]
    rfl
  · rw [if_neg hn]
    exact Bool.eq_false_iff.mpr hn

/-! ## Lemmas: edit distance and similarity -/

/-- Unfolding lemma for `getSimilarity`. -/
theorem getSimilarity_def (s1 s2 : String) :
    getSimilarity s1 s2 = if max s1.length s2.length = 0 then 1
      else 1 - (levenshteinDistance s1 s2 : ℚ) / ((max s1.length s2.length : ℕ) : ℚ) := rfl

/-- Distance from the empty string inserts every character. -/
theorem editDistanceSpec_nil_left (ys : List Char) : editDistanceSpec [] ys = ys.length := by
  simp [editDistanceSpec]

/-- Distance to the empty string deletes every character. -/
theorem editDistanceSpec_nil_right (xs : List Char) : editDistanceSpec xs [] = xs.length := by
  cases xs <;> simp [editDistanceSpec]

/-- A string is at edit distance 0 from itself. -/
theorem editDistanceSpec_self (xs : List Char) : editDistanceSpec xs xs = 0 := by
  induction xs with
  | nil => simp [editDistanceSpec]
  | cons x xs ih => simp [editDistanceSpec, ih]

/-- Unit-cost edit distance is symmetric. -/
theorem editDistanceSpec_comm : ∀ xs ys : List Char,
    editDistanceSpec xs ys = editDistanceSpec ys xs := by
  intro xs ys
  induction xs, ys using editDistanceSpec.induct with
  | case1 ys => rw [editDistanceSpec_nil_left, editDistanceSpec_nil_right]
  | case2 x xs => rw [editDistanceSpec_nil_left, editDistanceSpec_nil_right]
  | case3 x xs y ys ih1 ih2 ih3 =>
    simp only [editDistanceSpec]
    rw [ih1, ih2, ih3]
    by_cases hxy : x = y
    · subst hxy
      simp
      omega
    · rw [if_neg hxy, if_neg (Ne.symm hxy)]
      omega

/-- Unit-cost edit distance is at most the longer length. -/
theorem editDistanceSpec_le_max : ∀ xs ys : List Char,
    editDistanceSpec xs ys ≤ max xs.length ys.length := by
  intro xs ys
  induction xs, ys using editDistanceSpec.induct with
  | case1 ys => simp [editDistanceSpec]
  | case2 x xs => simp [editDistanceSpec]
  | case3 x xs y ys ih1 ih2 ih3 =>
    simp only [editDistanceSpec, List.length_cons]
    by_cases hxy : x = y
    · simp only [if_pos hxy]
      omega
    · simp only [if_neg hxy]
      omega

/-- The row-wise Levenshtein computation agrees with the textbook
recursion on an empty first string. -/
theorem lev_default_nil_left (ys : List Char) :
    levenshtein Levenshtein.defaultCost [] ys = ys.length := by
  induction ys with
  | nil => simp
  | cons y ys ih => simp [ih]; omega

/-- The row-wise Levenshtein computation agrees with the textbook
recursion on an empty second string. -/
theorem lev_default_nil_right (xs : List Char) :
    levenshtein Levenshtein.defaultCost xs [] = xs.length := by
  induction xs with
  | nil => simp
  | cons x xs ih => simp [ih]; omega

/-- The dynamic-programming Levenshtein distance equals the textbook
recursive unit-cost edit distance. -/
theorem lev_default_eq_spec : ∀ (xs ys : List Char),
    levenshtein Levenshtein.defaultCost xs ys = editDistanceSpec xs ys := by
  intro xs ys
  induction xs, ys using editDistanceSpec.induct with
  | case1 ys => rw [lev_default_nil_left, editDistanceSpec_nil_left]
  | case2 x xs => rw [lev_default_nil_right, editDistanceSpec_nil_right]
  | case3 x xs y ys ih1 ih2 ih3 =>
    rw [levenshtein_cons_cons]
    simp only [editDistanceSpec, Levenshtein.defaultCost_delete, Levenshtein.defaultCost_insert,
      Levenshtein.defaultCost_substitute]
    rw [ih1, ih2, ih3]
    by_cases hxy : x = y
    · simp [hxy]
      omega
    · rw [if_neg hxy]
      omega

/-- `levenshteinDistance` is the claimed textbook edit distance. -/
theorem levenshteinDistance_eq_spec (s1 s2 : String) :
    levenshteinDistance s1 s2 = editDistanceSpec s1.data s2.data :=
  lev_default_eq_spec s1.data s2.data

/-- Claim C7: the similarity is `1 − distance / max(len, len)` with the
classic unit-cost edit distance, `1.0` for two empty strings; it is
symmetric, reflexive (`sim(a,a) = 1`), and always lies in `[0, 1]`. -/
theorem claimC7 (a b : String) :
    getSimilarity a b = (if max a.length b.length = 0 then 1
      else 1 - (levenshteinDistance a b : ℚ) / ((max a.length b.length : ℕ) : ℚ)) ∧
    levenshteinDistance a b = editDistanceSpec a.data b.data ∧
    getSimilarity a b = getSimilarity b a ∧
    getSimilarity a a = 1 ∧
    getSimilarity "" "" = 1 ∧
    0 ≤ getSimilarity a b ∧ getSimilarity a b ≤ 1 := by
  refine ⟨getSimilarity_def a b, levenshteinDistance_eq_spec a b, ?_, ?_, ?_, ?_, ?_⟩
  · have hd : levenshteinDistance a b = levenshteinDistance b a := by
      rw [levenshteinDistance_eq_spec, levenshteinDistance_eq_spec, editDistanceSpec_comm]
    rw [getSimilarity_def, getSimilarity_def, hd, Nat.max_comm a.length b.length]
  · rw [getSimilarity_def]
    rcases Nat.eq_zero_or_pos (max a.length a.length) with h0 | hpos
    · rw [if_pos h0]
    · rw [if_neg (Nat.pos_iff_ne_zero.mp hpos)]
      have hz : levenshteinDistance a a = 0 := by
        rw [levenshteinDistance_eq_spec, editDistanceSpec_self]
      rw [hz]
      norm_num
  · rw [getSimilarity_def]
    rfl
  · rw [getSimilarity_def]
    split_ifs with h0
    · norm_num
    · have hle : levenshteinDistance a b ≤ max a.length b.length := by
        rw [levenshteinDistance_eq_spec]
        exact editDistanceSpec_le_max a.data b.data
      have hpos : (0 : ℚ) < ((max a.length b.length : ℕ) : ℚ) := by
        have h1 : 0 < max a.length b.length := Nat.pos_of_ne_zero h0
        exact_mod_cast h1
      have hfrac : (levenshteinDistance a b : ℚ) / ((max a.length b.length : ℕ) : ℚ) ≤ 1 := by
        rw [div_le_one hpos]
        exact_mod_cast hle
      linarith
  · rw [getSimilarity_def]
    split_ifs with h0
    · norm_num
    · have hnn : 0 ≤ (levenshteinDistance a b : ℚ) / ((max a.length b.length : ℕ) : ℚ) := by
        positivity
      linarith

/-! ## Lemmas: the fuzzy candidate check -/

/-- No tier is assigned exactly when the similarity is at most 0.7. -/
theorem similarityLevel_none_iff {s : ℚ} : similarityLevel s = none ↔ s ≤ 7/10 := by
  unfold similarityLevel
  split_ifs with h1 h2 h3
  · simp
    linarith
  · simp
    linarith
  · simp
    linarith
  · simp
    linarith

/-- Any assigned tier means the similarity exceeds 0.7. -/
theorem similarityLevel_some_gt {s : ℚ} {lvl : Similarity}
    (h : similarityLevel s = some lvl) : s > 7/10 := by
  by_contra hc
  rw [similarityLevel_none_iff.mpr (not_lt.mp hc)] at h
  exact absurd h (by simp)

/-- The tempo corroboration block passes exactly when no tempo
contradiction (with the tier spelled out as `lvl`) exists. -/
theorem bpmBlock_iff (seed cand : BsmLocalMap) (lvl : Similarity) :
    ((match knownTempo seed, knownTempo cand with
      | some b1, some b2 =>
        if |b1 - b2| > 10 ∧ |b1 - b2| / b1 > 1/10 then
          if lvl ≠ Similarity.high then false else true
        else true
      | _, _ => true) = true) ↔
    ¬ (∃ b1 b2, knownTempo seed = some b1 ∧ knownTempo cand = some b2 ∧
        |b1 - b2| > 10 ∧ |b1 - b2| / b1 > 1/10 ∧ lvl ≠ Similarity.high) := by
  rcases hb1 : knownTempo seed with _ | b1
  · constructor
    · rintro - ⟨b1', b2', hk1, -⟩
      exact absurd hk1 (by simp)
    · intro _
      rfl
  · rcases hb2 : knownTempo cand with _ | b2
    · constructor
      · rintro - ⟨b1', b2', -, hk2, -⟩
        exact absurd hk2 (by simp)
      · intro _
        rfl
    · show (if |b1 - b2| > 10 ∧ |b1 - b2| / b1 > 1/10 then
          if lvl ≠ Similarity.high then false else true
        else true) = true ↔ _
      by_cases hcond : |b1 - b2| > 10 ∧ |b1 - b2| / b1 > 1/10
      · rw [if_pos hcond]
        by_cases hlv : lvl ≠ Similarity.high
        · rw [if_pos hlv]
          simp only [Bool.false_eq_true, false_iff, not_not]
          exact ⟨b1, b2, rfl, rfl, hcond.1, hcond.2, hlv⟩
        · rw [if_neg hlv]
          simp only [true_iff]
          rintro ⟨b1', b2', -, -, -, -, hlv'⟩
          exact hlv hlv'
      · rw [if_neg hcond]
        simp only [true_iff]
        rintro ⟨b1', b2', hk1', hk2', hgt, hratio, -⟩
        obtain rfl := Option.some.inj hk1'
        obtain rfl := Option.some.inj hk2'
        exact hcond ⟨hgt, hratio⟩

/-- The duration corroboration block passes exactly when no duration
contradiction (with the tier spelled out as `lvl`) exists. -/
theorem durBlock_iff (seed cand : BsmLocalMap) (lvl : Similarity) :
    ((match knownDuration seed, knownDuration cand with
      | some d1, some d2 =>
        if |d1 - d2| > max 15 (d1 * (15/100)) then
          if lvl ≠ Similarity.high then false else true
        else true
      | _, _ => true) = true) ↔
    ¬ (∃ d1 d2, knownDuration seed = some d1 ∧ knownDuration cand = some d2 ∧
        |d1 - d2| > max 15 (d1 * (15/100)) ∧ lvl ≠ Similarity.high) := by
  rcases hd1 : knownDuration seed with _ | d1
  · constructor
    · rintro - ⟨d1', d2', hk1, -⟩
      exact absurd hk1 (by simp)
    · intro _
      rfl
  · rcases hd2 : knownDuration cand with _ | d2
    · constructor
      · rintro - ⟨d1', d2', -, hk2, -⟩
        exact absurd hk2 (by simp)
      · intro _
        rfl
    · show (if |d1 - d2| > max 15 (d1 * (15/100)) then
          if lvl ≠ Similarity.high then false else true
        else true) = true ↔ _
      by_cases hcond : |d1 - d2| > max 15 (d1 * (15/100))
      · rw [if_pos hcond]
        by_cases hlv : lvl ≠ Similarity.high
        · rw [if_pos hlv]
          simp only [Bool.false_eq_true, false_iff, not_not]
          exact ⟨d1, d2, rfl, rfl, hcond, hlv⟩
        · rw [if_neg hlv]
          simp only [true_iff]
          rintro ⟨d1', d2', -, -, -, hlv'⟩
          exact hlv hlv'
      · rw [if_neg hcond]
        simp only [true_iff]
        rintro ⟨d1', d2', hk1', hk2', hgt, -⟩
        obtain rfl := Option.some.inj hk1'
        obtain rfl := Option.some.inj hk2'
        exact hcond hgt

/-- Claim C4: a not-yet-clustered candidate is added to the seed's
cluster exactly when its key similarity exceeds 0.7 (tiers: high above
0.9, medium above 0.8, low above 0.7, boundaries falling to the lower
tier), the known-tempo contradiction (difference above 10 BPM and above
10% of the seed tempo) does not reject at a tier below `high`, and —
when the tempo check did not reject — the known-duration contradiction
(difference above `max(15, 15% of seed duration)`) does not reject at a
tier below `high`. -/
theorem claimC4 (seed cand : BsmLocalMap) :
    (candidateMatches seed cand = true ↔ fuzzyMatchSpec seed cand) ∧
    (∀ (cs : List BsmLocalMap) (processed : List String),
      processed.contains cand.hash = false →
      collectSimilar seed (cand :: cs) processed =
        if candidateMatches seed cand
        then ((cand :: (collectSimilar seed cs (cand.hash :: processed)).1),
              (collectSimilar seed cs (cand.hash :: processed)).2)
        else collectSimilar seed cs processed) := by
  constructor
  · cases hlvl : similarityLevel (getSimilarity
        (normalizeSongInfo seed.mapInfo.songName seed.mapInfo.songAuthorName)
        (normalizeSongInfo cand.mapInfo.songName cand.mapInfo.songAuthorName)) with
    | none =>
      have hcm : candidateMatches seed cand = false := by
        simp only [candidateMatches]
        rw [hlvl]
      rw [hcm]
      constructor
      · intro h
        exact absurd h (by simp)
      · rintro ⟨hgt, -, -⟩
        exact absurd hgt (not_lt.mpr (similarityLevel_none_iff.mp hlvl))
    | some lvl =>
      have hcm : candidateMatches seed cand =
          ((match knownTempo seed, knownTempo cand with
            | some b1, some b2 =>
              if |b1 - b2| > 10 ∧ |b1 - b2| / b1 > 1/10 then
                if lvl ≠ Similarity.high then false else true
              else true
            | _, _ => true) &&
           (match knownDuration seed, knownDuration cand with
            | some d1, some d2 =>
              if |d1 - d2| > max 15 (d1 * (15/100)) then
                if lvl ≠ Similarity.high then false else true
              else true
            | _, _ => true)) := by
        simp only [candidateMatches]
        rw [hlvl]
        rcases hb1 : knownTempo seed with _ | b1
        · rfl
        · rcases hb2 : knownTempo cand with _ | b2
          · rfl
          · by_cases hcond : |b1 - b2| > 10 ∧ |b1 - b2| / b1 > 1/10
            · by_cases hlv : lvl ≠ Similarity.high
              · simp only [if_pos hcond, if_pos hlv]
                rfl
              · simp only [if_pos hcond, if_neg hlv]
                rfl
            · simp only [if_neg hcond]
              rfl
      rw [hcm, Bool.and_eq_true, bpmBlock_iff, durBlock_iff]
      have hgt : getSimilarity (songKey seed) (songKey cand) > 7/10 :=
        similarityLevel_some_gt hlvl
      have htier : similarityLevel (getSimilarity (songKey seed) (songKey cand)) = some lvl :=
        hlvl
      have htc : tempoContradicts seed cand ↔
          (∃ b1 b2, knownTempo seed = some b1 ∧ knownTempo cand = some b2 ∧
            |b1 - b2| > 10 ∧ |b1 - b2| / b1 > 1/10 ∧ lvl ≠ Similarity.high) := by
        unfold tempoContradicts
        rw [htier]
        simp only [ne_eq, Option.some.injEq]
      have hdc : durationContradicts seed cand ↔
          (∃ d1 d2, knownDuration seed = some d1 ∧ knownDuration cand = some d2 ∧
            |d1 - d2| > max 15 (d1 * (15/100)) ∧ lvl ≠ Similarity.high) := by
        unfold durationContradicts
        rw [htier]
        simp only [ne_eq, Option.some.injEq]
      unfold fuzzyMatchSpec
      rw [← htc, ← hdc]
      constructor
      · rintro ⟨h1, h2⟩
        exact ⟨hgt, h1, fun _ => h2⟩
      · rintro ⟨-, h1, h2⟩
        exact ⟨h1, h2 h1⟩
  · intro cs processed hc
    have he : collectSimilar seed (cand :: cs) processed =
        if processed.contains cand.hash then collectSimilar seed cs processed
        else if candidateMatches seed cand then
          ((cand :: (collectSimilar seed cs (cand.hash :: processed)).1),
            (collectSimilar seed cs (cand.hash :: processed)).2)
        else collectSimilar seed cs processed := rfl
    rw [he, hc]
    simp

/-- Witness for claim C4 at a concrete matching pair (same song, no
tempo or duration metadata, distinct hashes). -/
theorem claimC4_witness :
    candidateMatches demoMapA demoMapC = true ∧ fuzzyMatchSpec demoMapA demoMapC :=
  ⟨by with_unfolding_all decide,
    (claimC4 demoMapA demoMapC).1.mp (by with_unfolding_all decide)⟩
